import Mathlib

/-
Shallow embedding of the log-correlation and reporting pipeline of
`src/app.py` (class `LogAnalysisRAG`), together with theorems checking the
natural-language specification against it.

Modelling conventions:
  * Python strings are Lean `String`s; character-level operations
    (slicing, strip, regex scanning) are carried out on `String.data`,
    i.e. on `List Char`, which matches Python's code-point semantics.
  * Python dicts (which preserve insertion order) are association lists
    `List (key × value)`; `lookupStr` is `dict.get`, `dictInsert` is
    `d[k] = v` (overwrite in place, append if fresh).
  * The ChromaDB collection is a plain list of stored entries;
    `collection.add` appends, `collection.get(where corr-id)` filters in
    store order.  This is the "store-return order" abstraction of §4.3.
  * The external LLM (`self.llm.invoke`) is an arbitrary function
    `llm : String → String` from prompt to reply; the number of
    invocations is tracked explicitly.
-/

namespace LogRAG

/-- Python whitespace characters (the ASCII fragment of `str.strip` /
regex `\s`): space, tab, newline, carriage return, vertical tab, form feed. -/
def isSpaceChar (c : Char) : Bool :=
  c = ' ' || c = '\t' || c = '\n' || c = '\r' || c = '\x0b' || c = '\x0c'

/-- Left strip: drop leading whitespace, as in Python `str.lstrip`. -/
def lstripChars (l : List Char) : List Char :=
  l.dropWhile isSpaceChar

/-- Right strip: drop trailing whitespace, as in Python `str.rstrip`. -/
def rstripChars (l : List Char) : List Char :=
  (l.reverse.dropWhile isSpaceChar).reverse

/-- Python `str.strip`: drop leading and trailing whitespace. -/
def stripChars (l : List Char) : List Char :=
  rstripChars (lstripChars l)

/-- String-level wrapper for Python `str.strip`. -/
def pyStrip (s : String) : String :=
  ⟨stripChars s.data⟩

/-- Case-insensitive character comparison, as under `re.IGNORECASE`. -/
def ciChar (a b : Char) : Bool :=
  a.toLower == b.toLower

/-- Case-insensitive literal-prefix match: if `pat` matches a prefix of `s`
up to case, return the remaining suffix of `s`. -/
def ciPrefix : List Char → List Char → Option (List Char)
  | [], s => some s
  | _ :: _, [] => none
  | p :: ps, c :: cs => if ciChar p c then ciPrefix ps cs else none

/-- Attempt of the regex `STATUS:\s*(SUCCESS|FAILURE)` (with `re.IGNORECASE`)
anchored at the start of `s`: the literal `STATUS:`, then greedily skipped
whitespace, then the alternation, `SUCCESS` tried first.  The result is
`match.group(1).upper()`: the canonical upper-case token.  Greedy `\s*`
followed by a letter needs no backtracking because no whitespace character
compares case-insensitively equal to a letter. -/
def matchStatusAt (s : List Char) : Option String :=
  match ciPrefix "STATUS:".data s with
  | none => none
  | some rest =>
    let rest2 := rest.dropWhile isSpaceChar
    if (ciPrefix "SUCCESS".data rest2).isSome then some "SUCCESS"
    else if (ciPrefix "FAILURE".data rest2).isSome then some "FAILURE"
    else none

/-- The scan of `re.search`: try the pattern at every position from the
left; the first position that matches wins. -/
def searchStatus : List Char → Option String
  | [] => none
  | c :: cs =>
    match matchStatusAt (c :: cs) with
    | some v => some v
    | none => searchStatus cs

/-- Line 141-142 of `src/app.py`:
`match = re.search(r"STATUS:\s*(SUCCESS|FAILURE)", response, re.IGNORECASE)`
and `status = match.group(1).upper() if match else "UNKNOWN"`. -/
def parseStatus (response : String) : String :=
  (searchStatus response.data).getD "UNKNOWN"

/-- The verdict the classifier extracts from a raw model reply: line 140
first strips the reply (`self.llm.invoke(prompt).strip()`), then the regex
scan runs on the stripped text. -/
def classifyReply (reply : String) : String :=
  parseStatus (pyStrip reply)

/-- The pydantic model `LogEntry` of `src/app.py` (lines 17-23): six string
fields. -/
structure LogEntry where
  application : String
  correlation_id : String
  log_level : String
  message : String
  details : String
  timestamp : String
deriving DecidableEq, Repr

/-- The metadata dict stored per entry in `_store_logs_in_chroma`
(lines 95-102). -/
structure Metadata where
  application : String
  correlation_id : String
  log_level : String
  timestamp : String
  message : String
  details : String
deriving DecidableEq, Repr

/-- One entry of the ChromaDB collection: document text, metadata dict and
the assigned id. -/
structure StoredLog where
  document : String
  metadata : Metadata
  id : String
deriving DecidableEq, Repr

/-- One element of a retrieval bundle: the dict
`{'document': doc, 'metadata': metadata}` built in
`retrieve_logs_by_correlation_id` (lines 119-122). -/
structure RetrievedLog where
  document : String
  metadata : Metadata
deriving DecidableEq, Repr

/-- A JSON value, the result of `json.loads` on one input line. -/
inductive Json where
  | str (s : String)
  | num (n : Int)
  | bool (b : Bool)
  | null
  | arr (elems : List Json)
  | obj (fields : List (String × Json))

/-- First-occurrence association-list lookup: Python `dict` access.  (For
dicts built by this program keys are unique, so first occurrence is the
only occurrence.) -/
def lookupStr {α : Type} (k : String) : List (String × α) → Option α
  | [] => none
  | p :: rest => if p.1 = k then some p.2 else lookupStr k rest

/-- Python `d[k] = v` on an insertion-ordered dict: overwrite the existing
key in place, else append the new key at the end. -/
def dictInsert {α : Type} (d : List (String × α)) (k : String) (v : α) : List (String × α) :=
  if d.any (fun p => p.1 = k) then
    d.map (fun p => if p.1 = k then (k, v) else p)
  else d ++ [(k, v)]

/-- Field extraction during validation: the field must be present and its
JSON value must be a string (pydantic `str`-typed fields, v2 semantics:
no coercion from other JSON types). -/
def getStrField (fields : List (String × Json)) (k : String) : Option String :=
  match lookupStr k fields with
  | some (Json.str s) => some s
  | _ => none

/-- Validation `LogEntry(**raw)` of a decoded JSON object (line 72): every
one of the six declared fields must be present with a string value; extra
fields are ignored; an absent or non-string field raises
`ValidationError`, modelled as `none`.  Nothing requires a field to be a
non-empty string. -/
def validateFields (fields : List (String × Json)) : Option LogEntry :=
  match getStrField fields "application", getStrField fields "correlation_id",
      getStrField fields "log_level", getStrField fields "message",
      getStrField fields "details", getStrField fields "timestamp" with
  | some a, some c, some l, some m, some d, some t => some ⟨a, c, l, m, d, t⟩
  | _, _, _, _, _, _ => none

/-- Outcome of processing one input line inside the `try` of lines 70-75. -/
inductive LineOutcome where
  | ok (e : LogEntry)
  | caught
  | crash

/-- Per-line behaviour of the ingestion loop (lines 69-75).  A line is
represented by its `json.loads` outcome (`none` = `JSONDecodeError`).
A decode failure or a validation failure is caught by the
`except (json.JSONDecodeError, ValidationError)` clause.  A line that
decodes to a JSON value that is NOT an object makes `LogEntry(**raw)`
raise `TypeError`, which that clause does not catch: the exception
escapes and aborts the whole load. -/
def lineOutcome : Option Json → LineOutcome
  | none => LineOutcome.caught
  | some (Json.obj fields) =>
    match validateFields fields with
    | some e => LineOutcome.ok e
    | none => LineOutcome.caught
  | some _ => LineOutcome.crash

/-- The per-file ingestion loop of `load_application_logs` (lines 67-75):
fold over the lines, accumulating the list of valid entries and the number
of printed line-level warnings; `none` models an uncaught exception
aborting the loop. -/
def ingestStep (acc : Option (List LogEntry × Nat)) (line : Option Json) :
    Option (List LogEntry × Nat) :=
  acc.bind (fun r =>
    match lineOutcome line with
    | LineOutcome.ok e => some (r.1 ++ [e], r.2)
    | LineOutcome.caught => some (r.1, r.2 + 1)
    | LineOutcome.crash => none)

def ingestLines (lines : List (Option Json)) : Option (List LogEntry × Nat) :=
  lines.foldl ingestStep (some ([], 0))

/-- Decimal digit character. -/
def digitChar (d : Nat) : Char := Char.ofNat (48 + d)

/-- Decimal rendering of a natural number (Python `str(i)` in the f-string
of line 103), with structural fuel so that it computes by reduction. -/
def natDigitsAux : Nat → Nat → List Char → List Char
  | 0, _, acc => acc
  | fuel + 1, n, acc =>
    let acc2 := digitChar (n % 10) :: acc
    if n < 10 then acc2 else natDigitsAux fuel (n / 10) acc2

/-- Decimal string of a natural number. -/
def natRepr (n : Nat) : String := ⟨natDigitsAux (n + 1) n []⟩

/-- The id assigned at line 103: `f"{application}_{log.correlation_id}_{i}"`
where `application` is the loop's application parameter and `i` the index
of the record in the batch. -/
def mkId (application correlation_id : String) (i : Nat) : String :=
  application ++ "_" ++ correlation_id ++ "_" ++ natRepr i

/-- The document text built at lines 87-93 (an f-string dedented and
stripped; the fields carry no surrounding whitespace in the template, so
the strip only removes the leading and trailing newline of the literal). -/
def docText (log : LogEntry) : String :=
  "Application: " ++ log.application ++ "\nLevel: " ++ log.log_level ++
    "\nMessage: " ++ log.message ++ "\nDetails: " ++ log.details ++
    "\nTimestamp: " ++ log.timestamp

/-- The metadata dict built at lines 95-102 (fields taken from the record
itself, not from the loop parameter). -/
def metaOf (log : LogEntry) : Metadata :=
  ⟨log.application, log.correlation_id, log.log_level, log.timestamp,
    log.message, log.details⟩

/-- The batch of stored entries produced by `_store_logs_in_chroma` for one
call: entry `i` gets id `mkId application correlation_id i`. -/
def storeBatch (logs : List LogEntry) (application : String) : List StoredLog :=
  logs.enum.map (fun p => ⟨docText p.2, metaOf p.2, mkId application p.2.correlation_id p.1⟩)

/-- `collection.add` appends the batch to the store (lines 104-109; when
the batch is empty no `add` call is made, which coincides with appending
nothing). -/
def storeLogs (store : List StoredLog) (logs : List LogEntry) (application : String) :
    List StoredLog :=
  store ++ storeBatch logs application

/-- Loading one application's file (lines 67-79): run the line loop, store
the accumulated valid records, and report `len(app_logs)` as the number of
loaded records.  `none` models the uncaught `TypeError` abort. -/
def loadAppLogs (store : List StoredLog) (application : String)
    (lines : List (Option Json)) : Option (List StoredLog × Nat) :=
  (ingestLines lines).map (fun r => (storeLogs store r.1 application, r.1.length))

/-- The fixed application enumeration `self.applications` (lines 40-44). -/
def applications : List String :=
  ["AuthService", "EmailService", "NotificationService",
   "UserManagement", "AuditService", "DatabaseService",
   "FileService", "ReportingService"]

/-- One step of the `defaultdict(list)` grouping of lines 117-122: append
the entry to its application's list, creating the key at the end on first
occurrence. -/
def insertGroup : List (String × List RetrievedLog) → String → RetrievedLog →
    List (String × List RetrievedLog)
  | [], app, e => [(app, [e])]
  | p :: rest, app, e =>
    if p.1 = app then (p.1, p.2 ++ [e]) :: rest
    else p :: insertGroup rest app e

/-- The bundle element built from one store result. -/
def toRetrieved (e : StoredLog) : RetrievedLog := ⟨e.document, e.metadata⟩

/-- Grouping of the store results by application (lines 117-122). -/
def groupLogs (l : List StoredLog) : List (String × List RetrievedLog) :=
  l.foldl (fun acc e => insertGroup acc e.metadata.application (toRetrieved e)) []

/-- `retrieve_logs_by_correlation_id` (lines 111-125): filter the store by
exact correlation-id equality (the `where` clause of `collection.get`, in
store-return order), group by application, then truncate each group to its
first `top_k` elements. -/
def retrieveLogs (store : List StoredLog) (correlation_id : String) (top_k : Nat) :
    List (String × List RetrievedLog) :=
  (groupLogs (store.filter (fun e => e.metadata.correlation_id = correlation_id))).map
    (fun p => (p.1, p.2.take top_k))

/-- Truncation of the details field (lines 150-152): strictly longer than
200 characters is cut to its first 200 characters plus an ellipsis
marker. -/
def truncDetails (details : String) : String :=
  if details.data.length > 200 then ⟨details.data.take 200⟩ ++ "..." else details

/-- One context line (line 153):
the timestamp, a dash, the level, a colon, the message, and the truncated
details in parentheses. -/
def contextLine (m : Metadata) : String :=
  m.timestamp ++ " - " ++ m.log_level ++ ": " ++ m.message ++ " (" ++
    truncDetails m.details ++ ")"

/-- `_prepare_context_for_llm` (lines 146-154): concatenate one line plus a
newline per entry, then strip the result. -/
def prepareContext (logs : List RetrievedLog) : String :=
  pyStrip ⟨(logs.map (fun l => (contextLine l.metadata).data ++ ['\n'])).flatten⟩

/-- The rendered prompt of lines 47-56 / 135-139: the
`PromptTemplate` with `app_name`, `correlation_id` and `log_content`
substituted. -/
def promptFor (app_name correlation_id log_content : String) : String :=
  "\nYou are a log analysis assistant. Analyze the following logs for application '" ++
    app_name ++ "' with correlation ID '" ++ correlation_id ++
    "'.\nDetermine whether the process was SUCCESSFUL or FAILED.\n\nLogs:\n" ++
    log_content ++
    "\n\nRespond with exactly one line in the format:\nSTATUS: [SUCCESS or FAILURE] - REASON: [brief explanation]\n"

/-- One iteration of the loop of `analyze_logs_with_llm` (lines 129-143)
for the application `app`: look the application up in the bundle with
default `[]`; with no logs assign `NO_LOGS` without invoking the model,
otherwise build the context, render the prompt, invoke the model once and
parse its reply.  The second component counts model invocations. -/
def analyzeStep (llm : String → String) (correlation_id : String)
    (bundle : List (String × List RetrievedLog))
    (acc : List (String × String) × Nat) (app : String) :
    List (String × String) × Nat :=
  let logs := (lookupStr app bundle).getD []
  if logs.isEmpty then
    (dictInsert acc.1 app "NO_LOGS", acc.2)
  else
    (dictInsert acc.1 app
      (classifyReply (llm (promptFor app correlation_id (prepareContext logs)))),
     acc.2 + 1)

/-- `analyze_logs_with_llm` (lines 127-144): fold the per-application step
over the fixed application enumeration, starting from the empty dict and
zero model invocations. -/
def analyzeLogs (llm : String → String) (correlation_id : String)
    (bundle : List (String × List RetrievedLog)) :
    List (String × String) × Nat :=
  applications.foldl (analyzeStep llm correlation_id bundle) ([], 0)

/-- `process_correlation_id` (lines 156-161): retrieve with the default
`top_k = 5`, then classify. -/
def processCorrId (store : List StoredLog) (llm : String → String)
    (correlation_id : String) : List (String × String) :=
  (analyzeLogs llm correlation_id (retrieveLogs store correlation_id 5)).1

/-- One report row (lines 168-170): the dict with key `correlation_id`
first, then one key per application in enumeration order, defaulting to
`NO_LOGS` when the classifier returned no value for the application. -/
def reportRow (store : List StoredLog) (llm : String → String)
    (correlation_id : String) : List (String × String) :=
  ("correlation_id", correlation_id) ::
    applications.map (fun app =>
      (app, (lookupStr app (processCorrId store llm correlation_id)).getD "NO_LOGS"))

/-- `generate_csv_report` (lines 163-175): one row per requested
correlation id, accumulated by appending in input order. -/
def generateReport (store : List StoredLog) (llm : String → String)
    (correlation_ids : List String) : List (List (String × String)) :=
  correlation_ids.foldl (fun acc cid => acc ++ [reportRow store llm cid]) []

/-- The header row written by `to_csv`: the keys of the row dicts in
insertion order. -/
def reportHeader : List String := "correlation_id" :: applications

/-- The six ASCII whitespace characters as a list. -/
def wsChars : List Char := [' ', '\t', '\n', '\r', '\x0b', '\x0c']

theorem mem_wsChars_of_isSpaceChar {c : Char} (h : isSpaceChar c = true) :
    c ∈ wsChars := by
  simp only [isSpaceChar, Bool.or_eq_true, decide_eq_true_eq] at h
  simp only [wsChars, List.mem_cons, List.not_mem_nil, or_false]
  tauto

theorem statusPat_ws : ∀ wsc ∈ wsChars, ∀ a ∈ "STATUS:".data, ciChar a wsc = false := by
  decide

theorem successPat_ws : ∀ wsc ∈ wsChars, ∀ a ∈ "SUCCESS".data, ciChar a wsc = false := by
  decide

theorem failurePat_ws : ∀ wsc ∈ wsChars, ∀ a ∈ "FAILURE".data, ciChar a wsc = false := by
  decide

/-- A position that starts with whitespace cannot start a match: no
whitespace character compares case-insensitively equal to the letter
`S`. -/
theorem matchStatusAt_ws_head {c : Char} (cs : List Char) (h : isSpaceChar c = true) :
    matchStatusAt (c :: cs) = none := by
  have hmem := mem_wsChars_of_isSpaceChar h
  have hS : ciChar 'S' c = false :=
    statusPat_ws c hmem 'S' (by decide)
  simp only [matchStatusAt, ciPrefix, hS]
  rfl

theorem searchStatus_cons (c : Char) (cs : List Char) :
    searchStatus (c :: cs) =
      match matchStatusAt (c :: cs) with
      | some v => some v
      | none => searchStatus cs := rfl

/-- A string of nothing but whitespace contains no match. -/
theorem searchStatus_allWs (l : List Char) (h : ∀ c ∈ l, isSpaceChar c = true) :
    searchStatus l = none := by
  induction l with
  | nil => rfl
  | cons c cs ih =>
    rw [searchStatus_cons, matchStatusAt_ws_head cs (h c (List.mem_cons_self c cs))]
    exact ih (fun x hx => h x (List.mem_cons_of_mem c hx))

/-- Stripping leading whitespace does not change the scan result. -/
theorem searchStatus_lstrip (l : List Char) :
    searchStatus (lstripChars l) = searchStatus l := by
  induction l with
  | nil => rfl
  | cons c cs ih =>
    by_cases h : isSpaceChar c = true
    · rw [lstripChars, List.dropWhile_cons_of_pos h, searchStatus_cons,
        matchStatusAt_ws_head cs h]
      exact ih
    · rw [lstripChars, List.dropWhile_cons_of_neg h]

/-- Matching a whitespace-free literal against `x ++ w` with `w` all
whitespace behaves exactly as against `x`; the leftover suffix just
carries the `w`. -/
theorem ciPrefix_append_ws (pat : List Char)
    (hpat : ∀ wsc ∈ wsChars, ∀ a ∈ pat, ciChar a wsc = false)
    (x w : List Char) (hw : ∀ c ∈ w, isSpaceChar c = true) :
    ciPrefix pat (x ++ w) = (ciPrefix pat x).map (fun rest => rest ++ w) := by
  induction x generalizing pat with
  | nil =>
    cases pat with
    | nil => rfl
    | cons p ps =>
      simp only [List.nil_append, ciPrefix, Option.map_none]
      cases w with
      | nil => rfl
      | cons c wtl =>
        have hc : ciChar p c = false :=
          hpat c (mem_wsChars_of_isSpaceChar (hw c (List.mem_cons_self c wtl))) p
            (List.mem_cons_self p ps)
        simp [ciPrefix, hc]
  | cons c xtl ih =>
    cases pat with
    | nil => rfl
    | cons p ps =>
      simp only [List.cons_append, ciPrefix]
      by_cases hc : ciChar p c = true
      · rw [if_pos hc, if_pos hc]
        exact ih ps (fun wsc hwsc a ha =>
          hpat wsc hwsc a (List.mem_cons_of_mem p ha))
      · rw [if_neg hc, if_neg hc]
        rfl

/-- Appending trailing whitespace does not change a match attempt. -/
theorem matchStatusAt_append_ws (x w : List Char)
    (hw : ∀ c ∈ w, isSpaceChar c = true) :
    matchStatusAt (x ++ w) = matchStatusAt x := by
  unfold matchStatusAt
  rw [ciPrefix_append_ws _ statusPat_ws x w hw]
  cases hres : ciPrefix "STATUS:".data x with
  | none => rfl
  | some rest =>
    simp only [Option.map_some']
    have hdw : w.dropWhile isSpaceChar = [] := by
      rw [List.dropWhile_eq_nil_iff]
      exact hw
    rw [List.dropWhile_append]
    by_cases hempty : (rest.dropWhile isSpaceChar).isEmpty = true
    · rw [if_pos hempty, hdw]
      rw [List.isEmpty_iff] at hempty
      rw [hempty]
    · rw [if_neg hempty]
      rw [ciPrefix_append_ws _ successPat_ws _ w hw,
        ciPrefix_append_ws _ failurePat_ws _ w hw]
      simp only [Option.isSome_map']

/-- Appending trailing whitespace does not change the scan result. -/
theorem searchStatus_append_ws (x w : List Char)
    (hw : ∀ c ∈ w, isSpaceChar c = true) :
    searchStatus (x ++ w) = searchStatus x := by
  induction x with
  | nil => exact searchStatus_allWs w hw
  | cons c xtl ih =>
    rw [List.cons_append, searchStatus_cons, searchStatus_cons,
      show c :: (xtl ++ w) = (c :: xtl) ++ w from rfl,
      matchStatusAt_append_ws (c :: xtl) w hw]
    cases matchStatusAt (c :: xtl) with
    | some v => rfl
    | none => exact ih

/-- Stripping trailing whitespace does not change the scan result. -/
theorem searchStatus_rstrip (l : List Char) :
    searchStatus (rstripChars l) = searchStatus l := by
  have hdecomp : l = rstripChars l ++ (l.reverse.takeWhile isSpaceChar).reverse := by
    unfold rstripChars
    rw [← List.reverse_append, List.takeWhile_append_dropWhile, List.reverse_reverse]
  conv_rhs => rw [hdecomp]
  rw [searchStatus_append_ws]
  intro c hc
  rw [List.mem_reverse] at hc
  exact List.mem_takeWhile_imp hc

/-- The strip at line 140 never changes the extracted verdict. -/
theorem classifyReply_eq_parseStatus (reply : String) :
    classifyReply reply = parseStatus reply := by
  unfold classifyReply parseStatus pyStrip
  show (searchStatus (stripChars reply.data)).getD "UNKNOWN" = _
  unfold stripChars
  rw [searchStatus_rstrip, searchStatus_lstrip]

/-- The scan of `searchStatus` implements leftmost-match `re.search`
semantics: either no position matches and the result is `none`, or the
result is the match at the first matching position. -/
theorem searchStatus_leftmost (l : List Char) :
    (searchStatus l = none ∧ ∀ i, matchStatusAt (l.drop i) = none) ∨
    (∃ i tok, matchStatusAt (l.drop i) = some tok ∧
      (∀ j, j < i → matchStatusAt (l.drop j) = none) ∧
      searchStatus l = some tok) := by
  induction l with
  | nil =>
    left
    exact ⟨rfl, fun i => by rw [List.drop_nil]; decide⟩
  | cons c cs ih =>
    cases hm : matchStatusAt (c :: cs) with
    | some v =>
      right
      exact ⟨0, v, by simpa using hm,
        fun j hj => absurd hj (Nat.not_lt_zero j),
        by rw [searchStatus_cons, hm]⟩
    | none =>
      have hsearch : searchStatus (c :: cs) = searchStatus cs := by
        rw [searchStatus_cons, hm]
      rcases ih with ⟨h1, h2⟩ | ⟨i, tok, hmi, hprev, hs⟩
      · left
        refine ⟨by rw [hsearch, h1], fun i => ?_⟩
        cases i with
        | zero => simpa using hm
        | succ j => simpa using h2 j
      · right
        refine ⟨i + 1, tok, by simpa using hmi, fun j hj => ?_,
          by rw [hsearch, hs]⟩
        cases j with
        | zero => simpa using hm
        | succ j2 => simpa using hprev j2 (Nat.lt_of_succ_lt_succ hj)

/-- C1: for every model reply, the classifier scans the reply with the
case-insensitive pattern `STATUS:\s*(SUCCESS|FAILURE)`; the first (leftmost)
matching position wins and the verdict is the upper-cased matched token;
if no position of the reply matches, the verdict is `UNKNOWN`.  In
particular `STATUS: SUCCESS - REASON: ok` yields `SUCCESS`,
`STATUS: failure - REASON: x` yields `FAILURE` despite the lower case, and
an unparseable reply yields `UNKNOWN`. -/
theorem spec_C1 :
    (∀ reply : String,
      ((∀ i, matchStatusAt (reply.data.drop i) = none) ∧
        classifyReply reply = "UNKNOWN") ∨
      (∃ i tok, matchStatusAt (reply.data.drop i) = some tok ∧
        (∀ j, j < i → matchStatusAt (reply.data.drop j) = none) ∧
        classifyReply reply = tok)) ∧
    classifyReply "STATUS: SUCCESS - REASON: ok" = "SUCCESS" ∧
    classifyReply "STATUS: failure - REASON: x" = "FAILURE" ∧
    classifyReply "the model refused to answer" = "UNKNOWN" := by
  refine ⟨fun reply => ?_, by decide, by decide, by decide⟩
  rw [classifyReply_eq_parseStatus]
  rcases searchStatus_leftmost reply.data with ⟨h1, h2⟩ | ⟨i, tok, hmi, hprev, hs⟩
  · left
    exact ⟨h2, by rw [parseStatus, h1]; rfl⟩
  · right
    exact ⟨i, tok, hmi, hprev, by rw [parseStatus, hs]; rfl⟩

/-- The stored entries with the queried correlation id and the given
application, in store order. -/
def matchesFor (store : List StoredLog) (correlation_id a : String) : List StoredLog :=
  (store.filter (fun e => e.metadata.correlation_id = correlation_id)).filter
    (fun e => e.metadata.application = a)

theorem lookupStr_insertGroup (acc : List (String × List RetrievedLog))
    (app a : String) (e : RetrievedLog) :
    lookupStr a (insertGroup acc app e) =
      if app = a then some (((lookupStr a acc).getD []) ++ [e])
      else lookupStr a acc := by
  induction acc with
  | nil =>
    by_cases h : app = a <;> simp [insertGroup, lookupStr, h]
  | cons p rest ih =>
    by_cases h1 : p.1 = app
    · by_cases h2 : app = a
      · have h3 : p.1 = a := h1.trans h2
        simp [insertGroup, lookupStr, h1, h2, h3]
      · have h3 : ¬ p.1 = a := fun hc => h2 (h1 ▸ hc)
        simp [insertGroup, lookupStr, h1, h2, h3]
    · by_cases h3 : p.1 = a
      · have h2 : ¬ app = a := fun hc => h1 (by rw [h3, hc])
        have h4 : ¬ a = app := fun hc => h2 hc.symm
        simp [insertGroup, lookupStr, h1, h2, h3, h4]
      · simp [insertGroup, lookupStr, h1, h3, ih]

theorem lookupStr_groupFold (l : List StoredLog)
    (acc : List (String × List RetrievedLog)) (a : String) :
    lookupStr a
        (l.foldl (fun acc e => insertGroup acc e.metadata.application (toRetrieved e)) acc) =
      match lookupStr a acc with
      | some v =>
        some (v ++ ((l.filter (fun e => e.metadata.application = a)).map toRetrieved))
      | none =>
        if l.filter (fun e => e.metadata.application = a) = [] then none
        else some ((l.filter (fun e => e.metadata.application = a)).map toRetrieved) := by
  induction l generalizing acc with
  | nil =>
    simp only [List.foldl_nil, List.filter_nil, List.map_nil, List.append_nil]
    cases lookupStr a acc <;> simp
  | cons e ltl ih =>
    rw [List.foldl_cons, ih, lookupStr_insertGroup]
    by_cases h : e.metadata.application = a
    · rw [if_pos h, List.filter_cons_of_pos (by simp [h])]
      cases hold : lookupStr a acc with
      | some v => simp
      | none => simp
    · rw [if_neg h, List.filter_cons_of_neg (by simp [h])]

theorem lookupStr_groupLogs (l : List StoredLog) (a : String) :
    lookupStr a (groupLogs l) =
      (if l.filter (fun e => e.metadata.application = a) = [] then none
       else some ((l.filter (fun e => e.metadata.application = a)).map toRetrieved)) := by
  rw [groupLogs, lookupStr_groupFold]
  rfl

theorem lookupStr_mapVals {α β : Type} (f : α → β) (d : List (String × α)) (a : String) :
    lookupStr a (d.map (fun p => (p.1, f p.2))) = (lookupStr a d).map f := by
  induction d with
  | nil => rfl
  | cons p rest ih =>
    by_cases h : p.1 = a <;> simp [lookupStr, h, ih]

theorem mem_keys_iff_lookupStr {α : Type} (d : List (String × α)) (a : String) :
    a ∈ d.map Prod.fst ↔ (lookupStr a d).isSome = true := by
  induction d with
  | nil => simp [lookupStr]
  | cons p rest ih =>
    by_cases h : p.1 = a
    · simp [lookupStr, h]
    · have h2 : ¬ a = p.1 := fun hc => h hc.symm
      simp [lookupStr, h, h2, ih]

/-- C2: the bundle returned by retrieval has exactly the applications with
at least one stored entry carrying the queried correlation id as keys;
each application's list consists of the first `top_k` of its matching
entries in store order (no re-sorting); and a correlation id with no
matching entries yields the empty bundle. -/
theorem spec_C2 :
    ∀ (store : List StoredLog) (cid : String) (top_k : Nat) (a : String),
    (a ∈ (retrieveLogs store cid top_k).map Prod.fst ↔ matchesFor store cid a ≠ []) ∧
    lookupStr a (retrieveLogs store cid top_k) =
      (if matchesFor store cid a = [] then none
       else some (((matchesFor store cid a).map toRetrieved).take top_k)) ∧
    (retrieveLogs store cid top_k = [] ↔
      store.filter (fun e => e.metadata.correlation_id = cid) = []) := by
  intro store cid top_k a
  have hlook : ∀ b : String,
      lookupStr b (retrieveLogs store cid top_k) =
        (if matchesFor store cid b = [] then none
         else some (((matchesFor store cid b).map toRetrieved).take top_k)) := by
    intro b
    rw [retrieveLogs, lookupStr_mapVals, lookupStr_groupLogs, matchesFor]
    by_cases h : (store.filter (fun e => e.metadata.correlation_id = cid)).filter
        (fun e => e.metadata.application = b) = []
    · rw [if_pos h, if_pos h]
      rfl
    · rw [if_neg h, if_neg h]
      rfl
  have hmem : a ∈ (retrieveLogs store cid top_k).map Prod.fst ↔
      matchesFor store cid a ≠ [] := by
    rw [mem_keys_iff_lookupStr, hlook a]
    by_cases h : matchesFor store cid a = [] <;> simp [h]
  refine ⟨hmem, hlook a, ?_, ?_⟩
  · intro hempty
    by_contra hne
    obtain ⟨e, he⟩ := List.exists_mem_of_ne_nil _ hne
    have hma : matchesFor store cid e.metadata.application ≠ [] := by
      intro hnil
      have : e ∈ matchesFor store cid e.metadata.application := by
        rw [matchesFor]
        exact List.mem_filter.2 ⟨he, by simp⟩
      rw [hnil] at this
      exact List.not_mem_nil e this
    have := (by
      rw [mem_keys_iff_lookupStr, hlook e.metadata.application]
      simp [hma] :
      e.metadata.application ∈ (retrieveLogs store cid top_k).map Prod.fst)
    rw [hempty] at this
    simp at this
  · intro hfil
    rw [retrieveLogs, hfil]
    rfl

/-- The verdict the classification loop assigns to one application. -/
def verdictFor (llm : String → String) (correlation_id : String)
    (bundle : List (String × List RetrievedLog)) (app : String) : String :=
  let logs := (lookupStr app bundle).getD []
  if logs.isEmpty then "NO_LOGS"
  else classifyReply (llm (promptFor app correlation_id (prepareContext logs)))

theorem dictInsert_fresh {α : Type} (d : List (String × α)) (a : String) (v : α)
    (h : a ∉ d.map Prod.fst) : dictInsert d a v = d ++ [(a, v)] := by
  have hany : d.any (fun p => p.1 = a) = false := by
    rw [List.any_eq_false]
    intro p hp
    simp only [decide_eq_true_eq]
    intro hpa
    exact h (List.mem_map.2 ⟨p, hp, hpa⟩)
  rw [dictInsert, hany]
  simp

theorem analyzeStep_eq (llm : String → String) (cid : String)
    (bundle : List (String × List RetrievedLog)) (d : List (String × String))
    (n : Nat) (a : String) (h : a ∉ d.map Prod.fst) :
    analyzeStep llm cid bundle (d, n) a =
      (d ++ [(a, verdictFor llm cid bundle a)],
       n + (if ((lookupStr a bundle).getD []).isEmpty then 0 else 1)) := by
  by_cases hl : ((lookupStr a bundle).getD []).isEmpty = true <;>
    simp [analyzeStep, verdictFor, hl, dictInsert_fresh d a _ h]

theorem foldl_analyzeStep (llm : String → String) (cid : String)
    (bundle : List (String × List RetrievedLog)) :
    ∀ (apps : List String) (d : List (String × String)) (n : Nat),
    (∀ a ∈ apps, a ∉ d.map Prod.fst) → apps.Nodup →
    apps.foldl (analyzeStep llm cid bundle) (d, n) =
      (d ++ apps.map (fun a => (a, verdictFor llm cid bundle a)),
       n + (apps.filter
         (fun a => ((lookupStr a bundle).getD []).isEmpty = false)).length) := by
  intro apps
  induction apps with
  | nil => intro d n _ _; simp
  | cons a apps2 ih =>
    intro d n hfresh hnodup
    rw [List.foldl_cons,
      analyzeStep_eq llm cid bundle d n a (hfresh a (List.mem_cons_self a apps2))]
    rw [ih (d ++ [(a, verdictFor llm cid bundle a)]) _ ?hfresh2 (List.Nodup.of_cons hnodup)]
    case hfresh2 =>
      intro b hb
      simp only [List.map_append, List.mem_append, List.map_cons, List.map_nil,
        List.mem_singleton, not_or]
      refine ⟨hfresh b (List.mem_cons_of_mem a hb), ?_⟩
      intro hba
      exact (List.nodup_cons.1 hnodup).1 (hba ▸ hb)
    refine Prod.ext ?_ ?_
    · simp
    · dsimp only
      by_cases hl : ((lookupStr a bundle).getD []).isEmpty = true
      · rw [if_pos hl, List.filter_cons_of_neg (by simp [hl])]
        omega
      · have hl2 : ((lookupStr a bundle).getD []).isEmpty = false := by
          revert hl
          cases ((lookupStr a bundle).getD []).isEmpty <;> simp
        rw [if_neg hl, List.filter_cons_of_pos (by simp [hl2]), List.length_cons]
        omega

theorem applications_nodup : applications.Nodup := by decide

theorem analyzeLogs_eq (llm : String → String) (cid : String)
    (bundle : List (String × List RetrievedLog)) :
    analyzeLogs llm cid bundle =
      (applications.map (fun a => (a, verdictFor llm cid bundle a)),
       (applications.filter
         (fun a => ((lookupStr a bundle).getD []).isEmpty = false)).length) := by
  rw [analyzeLogs,
    foldl_analyzeStep llm cid bundle applications [] 0 (by simp) applications_nodup]
  simp

theorem lookupStr_map_pair {α : Type} (f : String → α) :
    ∀ (apps : List String) (a : String), a ∈ apps →
    lookupStr a (apps.map (fun x => (x, f x))) = some (f a) := by
  intro apps
  induction apps with
  | nil => intro a ha; exact absurd ha (List.not_mem_nil a)
  | cons x apps2 ih =>
    intro a ha
    by_cases hx : x = a
    · simp [lookupStr, hx]
    · rcases List.mem_cons.1 ha with rfl | ha2
      · exact absurd rfl hx
      · simp only [List.map_cons, lookupStr, hx, if_false]
        exact ih a ha2

/-- C3: an application of the known enumeration that is absent from the
bundle, or present with an empty entry list, is assigned the verdict
`NO_LOGS`, and the number of model invocations equals the number of
applications with a non-empty entry list, so no invocation happens for
such an application. -/
theorem spec_C3 (llm : String → String) (cid : String)
    (bundle : List (String × List RetrievedLog)) (app : String)
    (happ : app ∈ applications)
    (hmiss : lookupStr app bundle = none ∨ lookupStr app bundle = some []) :
    lookupStr app (analyzeLogs llm cid bundle).1 = some "NO_LOGS" ∧
    (analyzeLogs llm cid bundle).2 =
      (applications.filter
        (fun a => ((lookupStr a bundle).getD []).isEmpty = false)).length := by
  rw [analyzeLogs_eq]
  refine ⟨?_, rfl⟩
  rw [lookupStr_map_pair _ applications app happ, verdictFor]
  rcases hmiss with h | h <;> rw [h] <;> rfl

/-- Concrete instance of C3: with an empty bundle, `AuthService` is marked
`NO_LOGS` and the mocked model is never invoked. -/
theorem spec_C3_witness :
    lookupStr "AuthService"
        (analyzeLogs (fun _ => "STATUS: SUCCESS - REASON: ok") "c1" []).1 =
      some "NO_LOGS" ∧
    (analyzeLogs (fun _ => "STATUS: SUCCESS - REASON: ok") "c1" []).2 =
      (applications.filter
        (fun a => ((lookupStr a ([] : List (String × List RetrievedLog))).getD
          []).isEmpty = false)).length :=
  spec_C3 (fun _ => "STATUS: SUCCESS - REASON: ok") "c1" [] "AuthService"
    (by decide) (Or.inl rfl)

theorem matchStatusAt_values (s : List Char) :
    matchStatusAt s = none ∨ matchStatusAt s = some "SUCCESS" ∨
      matchStatusAt s = some "FAILURE" := by
  rw [matchStatusAt]
  cases ciPrefix "STATUS:".data s with
  | none => exact Or.inl rfl
  | some rest =>
    dsimp only
    split
    · exact Or.inr (Or.inl rfl)
    · split
      · exact Or.inr (Or.inr rfl)
      · exact Or.inl rfl

theorem searchStatus_values (l : List Char) :
    searchStatus l = none ∨ searchStatus l = some "SUCCESS" ∨
      searchStatus l = some "FAILURE" := by
  induction l with
  | nil => exact Or.inl rfl
  | cons c cs ih =>
    rw [searchStatus_cons]
    rcases matchStatusAt_values (c :: cs) with h | h | h <;> rw [h]
    · exact ih
    · exact Or.inr (Or.inl rfl)
    · exact Or.inr (Or.inr rfl)

theorem classifyReply_values (r : String) :
    classifyReply r = "SUCCESS" ∨ classifyReply r = "FAILURE" ∨
      classifyReply r = "UNKNOWN" := by
  rw [classifyReply_eq_parseStatus, parseStatus]
  rcases searchStatus_values r.data with h | h | h <;> rw [h]
  · exact Or.inr (Or.inr rfl)
  · exact Or.inl rfl
  · exact Or.inr (Or.inl rfl)

/-- C10: the classifier's result dict has key set exactly the fixed
application enumeration (in order), and every value is one of `SUCCESS`,
`FAILURE`, `UNKNOWN` or `NO_LOGS`; in particular every known application
has a present value, so the report builder's `NO_LOGS` default for a
missing value can never fire. -/
theorem spec_C10 (llm : String → String) (cid : String)
    (bundle : List (String × List RetrievedLog)) :
    ((analyzeLogs llm cid bundle).1).map Prod.fst = applications ∧
    (∀ a ∈ applications, ∃ v,
      lookupStr a (analyzeLogs llm cid bundle).1 = some v ∧
      (v = "SUCCESS" ∨ v = "FAILURE" ∨ v = "UNKNOWN" ∨ v = "NO_LOGS")) := by
  rw [analyzeLogs_eq]
  constructor
  · rfl
  · intro a ha
    refine ⟨verdictFor llm cid bundle a, lookupStr_map_pair _ applications a ha, ?_⟩
    rw [verdictFor]
    by_cases h : ((lookupStr a bundle).getD []).isEmpty = true
    · rw [if_pos h]
      exact Or.inr (Or.inr (Or.inr rfl))
    · rw [if_neg h]
      rcases classifyReply_values
          (llm (promptFor a cid (prepareContext ((lookupStr a bundle).getD [])))) with
        hv | hv | hv
      · exact Or.inl hv
      · exact Or.inr (Or.inl hv)
      · exact Or.inr (Or.inr (Or.inl hv))

/-- Newline-free intercalation on character lists. -/
def interChars (sep : List Char) : List (List Char) → List Char
  | [] => []
  | [l] => l
  | l :: l2 :: ls => l ++ sep ++ interChars sep (l2 :: ls)

/-- Modelled from the claim's words: the newline-joined concatenation of
the per-entry context lines, with no stripping.  This is the spec-side
description the code is compared against. -/
def joinedContext (logs : List RetrievedLog) : String :=
  ⟨interChars ['\n'] (logs.map (fun l => (contextLine l.metadata).data))⟩

theorem str_data_append (a b : String) : (a ++ b).data = a.data ++ b.data := rfl

theorem flatten_nl_eq_inter (ls : List (List Char)) (h : ls ≠ []) :
    (ls.map (fun l => l ++ ['\n'])).flatten = interChars ['\n'] ls ++ ['\n'] := by
  induction ls with
  | nil => exact absurd rfl h
  | cons l ls2 ih =>
    cases ls2 with
    | nil => simp [interChars]
    | cons l2 ls3 =>
      rw [List.map_cons, List.flatten_cons, ih (by simp), interChars]
      simp [List.append_assoc]

theorem rstripChars_append_ws (y : List Char) (c : Char) (hc : isSpaceChar c = true) :
    rstripChars (y ++ [c]) = rstripChars y := by
  rw [rstripChars, rstripChars, List.reverse_append, List.reverse_singleton,
    List.singleton_append, List.dropWhile_cons_of_pos hc]

theorem stripChars_append_ws (x : List Char) (c : Char) (hc : isSpaceChar c = true) :
    stripChars (x ++ [c]) = stripChars x := by
  rw [stripChars, stripChars, lstripChars, lstripChars, List.dropWhile_append]
  by_cases hx : (x.dropWhile isSpaceChar).isEmpty = true
  · rw [if_pos hx, List.dropWhile_cons_of_pos hc]
    rw [List.isEmpty_iff] at hx
    rw [hx]
    rfl
  · rw [if_neg hx]
    exact rstripChars_append_ws _ c hc

theorem stripChars_of_clean (l : List Char) (c : Char) (rest : List Char)
    (hl : l = c :: rest) (hc : isSpaceChar c = false)
    (A : List Char) (z : Char) (hz : l = A ++ [z]) (hzc : isSpaceChar z = false) :
    stripChars l = l := by
  have hlstrip : lstripChars l = l := by
    rw [hl, lstripChars, List.dropWhile_cons_of_neg (by simp [hc])]
  rw [stripChars, hlstrip, rstripChars, hz, List.reverse_append,
    List.reverse_singleton, List.singleton_append,
    List.dropWhile_cons_of_neg (by simp [hzc])]
  simp

theorem contextLine_ends_paren (m : Metadata) :
    ∃ A, (contextLine m).data = A ++ [')'] := by
  refine ⟨(m.timestamp ++ " - " ++ m.log_level ++ ": " ++ m.message ++ " (" ++
    truncDetails m.details).data, ?_⟩
  rw [contextLine]
  rw [show m.timestamp ++ " - " ++ m.log_level ++ ": " ++ m.message ++ " (" ++
      truncDetails m.details ++ ")" =
    (m.timestamp ++ " - " ++ m.log_level ++ ": " ++ m.message ++ " (" ++
      truncDetails m.details) ++ ")" from rfl]
  rw [str_data_append]

theorem interChars_ends_paren (ls : List (List Char)) (h : ls ≠ [])
    (hall : ∀ l ∈ ls, ∃ A, l = A ++ [')']) :
    ∃ B, interChars ['\n'] ls = B ++ [')'] := by
  induction ls with
  | nil => exact absurd rfl h
  | cons l ls2 ih =>
    cases ls2 with
    | nil =>
      obtain ⟨A, hA⟩ := hall l (List.mem_cons_self l [])
      exact ⟨A, by rw [interChars, hA]⟩
    | cons l2 ls3 =>
      obtain ⟨B, hB⟩ :=
        ih (by simp) (fun x hx => hall x (List.mem_cons_of_mem l hx))
      refine ⟨l ++ ['\n'] ++ B, ?_⟩
      rw [interChars, hB]
      simp [List.append_assoc]

/-- The claim of C4 is false as stated: when the first entry's timestamp
begins with a whitespace character, the final `strip` removes it, so the
built context is not the plain newline-joined concatenation of the
formatted lines. -/
theorem spec_C4_counterexample :
    prepareContext [⟨"doc", ⟨"AuthService", "c9", "INFO", " 2024-01-01T00:00:00",
        "started", "detail"⟩⟩] ≠
      joinedContext [⟨"doc", ⟨"AuthService", "c9", "INFO", " 2024-01-01T00:00:00",
        "started", "detail"⟩⟩] := by
  decide

/-- C4 (amended): the context text is the newline-joined concatenation, in
bundle order, of one `timestamp - level: message (details)` line per entry
with details truncated to 200 characters plus an ellipsis marker, except
that the whole text is additionally stripped of leading and trailing
whitespace; when the first line does not begin with whitespace the strip
is the identity and the text is exactly the newline-joined concatenation.
A 250-character details string contributes its first 200 characters plus
the marker. -/
theorem spec_C4 (e : RetrievedLog) (es : List RetrievedLog) :
    prepareContext (e :: es) = pyStrip (joinedContext (e :: es)) ∧
    (isSpaceChar ((contextLine e.metadata).data.headD ' ') = false →
      prepareContext (e :: es) = joinedContext (e :: es)) ∧
    (∀ d : String, d.data.length = 250 →
      truncDetails d = String.mk (d.data.take 200) ++ "...") := by
  have hlines : (e :: es).map (fun l => (contextLine l.metadata).data ++ ['\n']) =
      ((e :: es).map (fun l => (contextLine l.metadata).data)).map
        (fun l => l ++ ['\n']) := by
    rw [List.map_map]
    rfl
  have hstrip : prepareContext (e :: es) = pyStrip (joinedContext (e :: es)) := by
    rw [prepareContext, pyStrip, pyStrip, joinedContext, hlines,
      flatten_nl_eq_inter _ (by simp)]
    show String.mk (stripChars _) = String.mk (stripChars _)
    rw [stripChars_append_ws _ '\n' (by decide)]
  refine ⟨hstrip, ?_, ?_⟩
  · intro hhead
    obtain ⟨A, hA⟩ := contextLine_ends_paren e.metadata
    obtain ⟨c, rest, hcr⟩ : ∃ c rest, (contextLine e.metadata).data = c :: rest := by
      cases hdata : (contextLine e.metadata).data with
      | nil => rw [hdata] at hA; exact absurd hA.symm (by simp)
      | cons c rest => exact ⟨c, rest, rfl⟩
    have hc : isSpaceChar c = false := by
      rw [hcr] at hhead
      exact hhead
    obtain ⟨B, hB⟩ := interChars_ends_paren
        ((e :: es).map (fun l => (contextLine l.metadata).data)) (by simp)
        (by
          intro l hl
          obtain ⟨x, hx, hxl⟩ := List.mem_map.1 hl
          exact hxl ▸ contextLine_ends_paren x.metadata)
    have hfirst : ∃ rest2, interChars ['\n']
        ((e :: es).map (fun l => (contextLine l.metadata).data)) = c :: rest2 := by
      cases es with
      | nil => exact ⟨rest, by rw [List.map_cons, List.map_nil, interChars, hcr]⟩
      | cons e2 es2 =>
        refine ⟨rest ++ ['\n'] ++ interChars ['\n']
          ((e2 :: es2).map (fun l => (contextLine l.metadata).data)), ?_⟩
        simp only [List.map_cons, interChars]
        rw [hcr]
        simp [List.append_assoc]
    obtain ⟨rest2, hrest2⟩ := hfirst
    rw [hstrip, pyStrip, joinedContext]
    show String.mk (stripChars _) = _
    rw [stripChars_of_clean _ c rest2 hrest2 hc B ')' hB (by decide)]
  · intro d hd
    rw [truncDetails, if_pos (by omega)]

set_option maxRecDepth 10000 in
/-- Concrete instance of C4 (amended): a clean single entry whose details
string has 250 characters. -/
theorem spec_C4_witness :
    prepareContext [⟨"doc", ⟨"AuthService", "c9", "INFO", "2024-01-01T00:00:00",
        "started", "detail"⟩⟩] =
      joinedContext [⟨"doc", ⟨"AuthService", "c9", "INFO", "2024-01-01T00:00:00",
        "started", "detail"⟩⟩] ∧
    truncDetails (String.mk (List.replicate 250 'x')) =
      String.mk ((String.mk (List.replicate 250 'x')).data.take 200) ++ "..." :=
  ⟨((spec_C4 ⟨"doc", ⟨"AuthService", "c9", "INFO", "2024-01-01T00:00:00",
      "started", "detail"⟩⟩ []).2.1 (by decide)),
   ((spec_C4 ⟨"doc", ⟨"AuthService", "c9", "INFO", "2024-01-01T00:00:00",
      "started", "detail"⟩⟩ []).2.2 (String.mk (List.replicate 250 'x'))
      (by decide))⟩

/-- The valid record carried by a line, when the line decodes to an object
that passes validation. -/
def lineOk (line : Option Json) : Option LogEntry :=
  match lineOutcome line with
  | LineOutcome.ok e => some e
  | _ => none

theorem foldl_ingestStep_none : ∀ lines : List (Option Json),
    lines.foldl ingestStep none = none := by
  intro lines
  induction lines with
  | nil => rfl
  | cons l ltl ih => exact ih

theorem foldl_ingestStep_some :
    ∀ (lines : List (Option Json)) (es : List LogEntry) (n : Nat)
      (r : List LogEntry × Nat),
    lines.foldl ingestStep (some (es, n)) = some r →
    r.1 = es ++ lines.filterMap lineOk ∧
    r.2 = n + (lines.filter (fun l => (lineOk l).isNone)).length := by
  intro lines
  induction lines with
  | nil =>
    intro es n r h
    simp only [List.foldl_nil, Option.some_inj] at h
    subst h
    simp
  | cons l ltl ih =>
    intro es n r h
    rw [List.foldl_cons] at h
    cases hline : lineOutcome l with
    | ok e =>
      rw [show ingestStep (some (es, n)) l = some (es ++ [e], n) by
        simp [ingestStep, hline]] at h
      obtain ⟨h1, h2⟩ := ih (es ++ [e]) n r h
      constructor
      · rw [h1, List.filterMap_cons, show lineOk l = some e by simp [lineOk, hline]]
        simp
      · rw [h2, List.filter_cons_of_neg (by simp [lineOk, hline])]
    | caught =>
      rw [show ingestStep (some (es, n)) l = some (es, n + 1) by
        simp [ingestStep, hline]] at h
      obtain ⟨h1, h2⟩ := ih es (n + 1) r h
      constructor
      · rw [h1, List.filterMap_cons, show lineOk l = none by simp [lineOk, hline]]
      · rw [h2, List.filter_cons_of_pos (by simp [lineOk, hline]),
          List.length_cons]
        omega
    | crash =>
      rw [show ingestStep (some (es, n)) l = none by simp [ingestStep, hline]] at h
      rw [foldl_ingestStep_none] at h
      exact absurd h (by simp)

theorem filterMap_add_filter_length (lines : List (Option Json)) :
    (lines.filterMap lineOk).length +
      (lines.filter (fun l => (lineOk l).isNone)).length = lines.length := by
  induction lines with
  | nil => rfl
  | cons l ltl ih =>
    cases hl : lineOk l with
    | some e =>
      have hfm : List.filterMap lineOk (l :: ltl) = e :: List.filterMap lineOk ltl := by
        simp [List.filterMap_cons, hl]
      have hfl : List.filter (fun x => (lineOk x).isNone) (l :: ltl) =
          List.filter (fun x => (lineOk x).isNone) ltl :=
        List.filter_cons_of_neg (by simp [hl])
      rw [hfm, hfl, List.length_cons, List.length_cons]
      omega
    | none =>
      have hfm : List.filterMap lineOk (l :: ltl) = List.filterMap lineOk ltl := by
        simp [List.filterMap_cons, hl]
      have hfl : List.filter (fun x => (lineOk x).isNone) (l :: ltl) =
          l :: List.filter (fun x => (lineOk x).isNone) ltl :=
        List.filter_cons_of_pos (by simp [hl])
      rw [hfm, hfl, List.length_cons, List.length_cons]
      omega

/-- C6 (code bug): a line that decodes to well-formed JSON which is not an
object (here the number `42`) makes `LogEntry(**raw)` raise `TypeError`,
which the `except (json.JSONDecodeError, ValidationError)` clause of lines
70-75 does not catch; the whole file load aborts instead of warning and
continuing, even though the file also contains a schema-valid line and a
malformed line that should have produced one stored record and one
warning. -/
theorem spec_C6_bug :
    lineOutcome (some (Json.num 42)) = LineOutcome.crash ∧
    ingestLines
      [some (Json.obj [("application", Json.str "AuthService"),
        ("correlation_id", Json.str "c1"), ("log_level", Json.str "ERROR"),
        ("message", Json.str "m"), ("details", Json.str "d"),
        ("timestamp", Json.str "t")]),
       some (Json.num 42), none] = none :=
  ⟨rfl, rfl⟩

/-- C7: whenever ingestion completes, the reported per-application count is
exactly the number of lines whose record was successfully parsed and
validated; the lines skipped with a warning are excluded from the count
(valid plus skipped equals total) and the store grows by exactly the
counted records. -/
theorem spec_C7 (store : List StoredLog) (app : String)
    (lines : List (Option Json)) (res : List StoredLog × Nat)
    (h : loadAppLogs store app lines = some res) :
    res.2 = (lines.filterMap lineOk).length ∧
    res.2 + (lines.filter (fun l => (lineOk l).isNone)).length = lines.length ∧
    res.1.length = store.length + res.2 := by
  rw [loadAppLogs] at h
  cases hing : ingestLines lines with
  | none => rw [hing] at h; exact absurd h (by simp)
  | some r =>
    rw [hing] at h
    simp only [Option.map_some', Option.some_inj] at h
    obtain ⟨h1, h2⟩ := foldl_ingestStep_some lines [] 0 r hing
    subst h
    have hcount : r.1.length = (lines.filterMap lineOk).length := by
      rw [h1, List.nil_append]
    refine ⟨hcount, ?_, ?_⟩
    · rw [hcount]
      exact filterMap_add_filter_length lines
    · simp [storeLogs, storeBatch]

/-- Concrete instance of C7: one valid line and one malformed line load one
record and skip one line. -/
theorem spec_C7_witness :
    (storeBatch [⟨"AuthService", "c1", "ERROR", "m", "d", "t"⟩] "AuthService",
        1).2 =
      (([some (Json.obj [("application", Json.str "AuthService"),
          ("correlation_id", Json.str "c1"), ("log_level", Json.str "ERROR"),
          ("message", Json.str "m"), ("details", Json.str "d"),
          ("timestamp", Json.str "t")]), none] : List (Option Json)).filterMap
        lineOk).length ∧
    (storeBatch [⟨"AuthService", "c1", "ERROR", "m", "d", "t"⟩] "AuthService",
          1).2 +
        (([some (Json.obj [("application", Json.str "AuthService"),
            ("correlation_id", Json.str "c1"), ("log_level", Json.str "ERROR"),
            ("message", Json.str "m"), ("details", Json.str "d"),
            ("timestamp", Json.str "t")]), none] : List (Option Json)).filter
          (fun l => (lineOk l).isNone)).length =
      ([some (Json.obj [("application", Json.str "AuthService"),
        ("correlation_id", Json.str "c1"), ("log_level", Json.str "ERROR"),
        ("message", Json.str "m"), ("details", Json.str "d"),
        ("timestamp", Json.str "t")]), none] : List (Option Json)).length ∧
    (storeBatch [⟨"AuthService", "c1", "ERROR", "m", "d", "t"⟩] "AuthService",
        1).1.length =
      ([] : List StoredLog).length +
        (storeBatch [⟨"AuthService", "c1", "ERROR", "m", "d", "t"⟩]
          "AuthService", 1).2 :=
  spec_C7 [] "AuthService"
    [some (Json.obj [("application", Json.str "AuthService"),
      ("correlation_id", Json.str "c1"), ("log_level", Json.str "ERROR"),
      ("message", Json.str "m"), ("details", Json.str "d"),
      ("timestamp", Json.str "t")]), none]
    (storeBatch [⟨"AuthService", "c1", "ERROR", "m", "d", "t"⟩] "AuthService", 1)
    rfl

theorem validateFields_eq_some (fields : List (String × Json)) (e : LogEntry) :
    validateFields fields = some e ↔
      (getStrField fields "application" = some e.application ∧
       getStrField fields "correlation_id" = some e.correlation_id ∧
       getStrField fields "log_level" = some e.log_level ∧
       getStrField fields "message" = some e.message ∧
       getStrField fields "details" = some e.details ∧
       getStrField fields "timestamp" = some e.timestamp) := by
  obtain ⟨ea, ec, el, em, ed, et⟩ := e
  cases ha : getStrField fields "application" <;>
    cases hc : getStrField fields "correlation_id" <;>
      cases hl : getStrField fields "log_level" <;>
        cases hm : getStrField fields "message" <;>
          cases hd : getStrField fields "details" <;>
            cases ht : getStrField fields "timestamp" <;>
              simp [validateFields, ha, hc, hl, hm, hd, ht]

/-- The claim of C8 is false as stated: a record whose six fields are all
present but empty strings passes validation, so acceptance does not imply
non-emptiness. -/
theorem spec_C8_counterexample :
    validateFields [("application", Json.str ""), ("correlation_id", Json.str ""),
      ("log_level", Json.str ""), ("message", Json.str ""),
      ("details", Json.str ""), ("timestamp", Json.str "")] =
      some ⟨"", "", "", "", "", ""⟩ ∧
    (⟨"", "", "", "", "", ""⟩ : LogEntry).application = "" :=
  ⟨rfl, rfl⟩

/-- C8 (amended): validation accepts a record exactly when all six fields
are present with string values (which may be empty strings); a record
missing any field is rejected; an accepted record's fields are exactly the
present field values; and every record the ingestion loop accepts for
storage comes from a decoded JSON object that passed this validation. -/
theorem spec_C8 (fields : List (String × Json)) :
    ((validateFields fields).isSome = true ↔
      ((getStrField fields "application").isSome = true ∧
       (getStrField fields "correlation_id").isSome = true ∧
       (getStrField fields "log_level").isSome = true ∧
       (getStrField fields "message").isSome = true ∧
       (getStrField fields "details").isSome = true ∧
       (getStrField fields "timestamp").isSome = true)) ∧
    (∀ e, validateFields fields = some e →
      getStrField fields "application" = some e.application ∧
      getStrField fields "correlation_id" = some e.correlation_id ∧
      getStrField fields "log_level" = some e.log_level ∧
      getStrField fields "message" = some e.message ∧
      getStrField fields "details" = some e.details ∧
      getStrField fields "timestamp" = some e.timestamp) ∧
    (∀ (line : Option Json) (e : LogEntry), lineOutcome line = LineOutcome.ok e →
      ∃ fs, line = some (Json.obj fs) ∧ validateFields fs = some e) := by
  refine ⟨⟨?_, ?_⟩, ?_, ?_⟩
  · intro h
    obtain ⟨e, he⟩ := Option.isSome_iff_exists.1 h
    obtain ⟨h1, h2, h3, h4, h5, h6⟩ := (validateFields_eq_some fields e).1 he
    exact ⟨by simp [h1], by simp [h2], by simp [h3], by simp [h4],
      by simp [h5], by simp [h6]⟩
  · rintro ⟨h1, h2, h3, h4, h5, h6⟩
    obtain ⟨a, ha⟩ := Option.isSome_iff_exists.1 h1
    obtain ⟨c, hc⟩ := Option.isSome_iff_exists.1 h2
    obtain ⟨l, hl⟩ := Option.isSome_iff_exists.1 h3
    obtain ⟨m, hm⟩ := Option.isSome_iff_exists.1 h4
    obtain ⟨d, hd⟩ := Option.isSome_iff_exists.1 h5
    obtain ⟨t, ht⟩ := Option.isSome_iff_exists.1 h6
    have hv : validateFields fields = some ⟨a, c, l, m, d, t⟩ :=
      (validateFields_eq_some fields ⟨a, c, l, m, d, t⟩).2
        ⟨ha, hc, hl, hm, hd, ht⟩
    simp [hv]
  · intro e he
    exact (validateFields_eq_some fields e).1 he
  · intro line e hline
    cases line with
    | none => simp [lineOutcome] at hline
    | some j =>
      cases j with
      | str s => simp [lineOutcome] at hline
      | num n => simp [lineOutcome] at hline
      | bool b => simp [lineOutcome] at hline
      | null => simp [lineOutcome] at hline
      | arr elems => simp [lineOutcome] at hline
      | obj fs =>
        refine ⟨fs, rfl, ?_⟩
        have hline2 : (match validateFields fs with
            | some e0 => LineOutcome.ok e0
            | none => LineOutcome.caught) = LineOutcome.ok e := hline
        revert hline2
        cases validateFields fs with
        | none => intro hline2; exact LineOutcome.noConfusion hline2
        | some e2 =>
          intro hline2
          injection hline2 with h
          rw [h]

/-- Concrete instance of C8 (amended): the accepted all-empty record's
fields are exactly the present (empty-string) field values. -/
theorem spec_C8_witness :
    getStrField [("application", Json.str ""), ("correlation_id", Json.str ""),
        ("log_level", Json.str ""), ("message", Json.str ""),
        ("details", Json.str ""), ("timestamp", Json.str "")] "application" =
      some (⟨"", "", "", "", "", ""⟩ : LogEntry).application ∧
    getStrField [("application", Json.str ""), ("correlation_id", Json.str ""),
        ("log_level", Json.str ""), ("message", Json.str ""),
        ("details", Json.str ""), ("timestamp", Json.str "")] "correlation_id" =
      some (⟨"", "", "", "", "", ""⟩ : LogEntry).correlation_id ∧
    getStrField [("application", Json.str ""), ("correlation_id", Json.str ""),
        ("log_level", Json.str ""), ("message", Json.str ""),
        ("details", Json.str ""), ("timestamp", Json.str "")] "log_level" =
      some (⟨"", "", "", "", "", ""⟩ : LogEntry).log_level ∧
    getStrField [("application", Json.str ""), ("correlation_id", Json.str ""),
        ("log_level", Json.str ""), ("message", Json.str ""),
        ("details", Json.str ""), ("timestamp", Json.str "")] "message" =
      some (⟨"", "", "", "", "", ""⟩ : LogEntry).message ∧
    getStrField [("application", Json.str ""), ("correlation_id", Json.str ""),
        ("log_level", Json.str ""), ("message", Json.str ""),
        ("details", Json.str ""), ("timestamp", Json.str "")] "details" =
      some (⟨"", "", "", "", "", ""⟩ : LogEntry).details ∧
    getStrField [("application", Json.str ""), ("correlation_id", Json.str ""),
        ("log_level", Json.str ""), ("message", Json.str ""),
        ("details", Json.str ""), ("timestamp", Json.str "")] "timestamp" =
      some (⟨"", "", "", "", "", ""⟩ : LogEntry).timestamp :=
  (spec_C8 [("application", Json.str ""), ("correlation_id", Json.str ""),
    ("log_level", Json.str ""), ("message", Json.str ""),
    ("details", Json.str ""), ("timestamp", Json.str "")]).2.1
    ⟨"", "", "", "", "", ""⟩ rfl

/-- Decimal value of a digit string, used to invert `natDigitsAux`. -/
def valOfDigits (ds : List Char) : Nat :=
  ds.foldl (fun a c => 10 * a + (c.toNat - 48)) 0

theorem digitChar_toNat (d : Nat) (h : d < 10) : (digitChar d).toNat = 48 + d := by
  interval_cases d <;> rfl

theorem natDigitsAux_spec :
    ∀ (fuel n : Nat) (acc : List Char), n < fuel →
    ∃ ds, natDigitsAux fuel n acc = ds ++ acc ∧ ds ≠ [] ∧
      (∀ c ∈ ds, 48 ≤ c.toNat ∧ c.toNat ≤ 57) ∧ valOfDigits ds = n := by
  intro fuel
  induction fuel with
  | zero => intro n acc h; exact absurd h (by omega)
  | succ fuel ih =>
    intro n acc h
    by_cases h10 : n < 10
    · refine ⟨[digitChar (n % 10)], ?_, by simp, ?_, ?_⟩
      · simp [natDigitsAux, h10]
      · intro c hc
        rw [List.mem_singleton] at hc
        rw [hc, digitChar_toNat (n % 10) (Nat.mod_lt n (by omega))]
        have := Nat.mod_lt n (show 0 < 10 by omega)
        omega
      · rw [valOfDigits, List.foldl_cons, List.foldl_nil,
          digitChar_toNat (n % 10) (Nat.mod_lt n (by omega))]
        have := Nat.mod_eq_of_lt h10
        omega
    · have hrec : n / 10 < fuel := by
        have := Nat.div_lt_self (show 0 < n by omega) (show 1 < 10 by omega)
        omega
      obtain ⟨ds, hds, hne, hdig, hval⟩ :=
        ih (n / 10) (digitChar (n % 10) :: acc) hrec
      refine ⟨ds ++ [digitChar (n % 10)], ?_, by simp, ?_, ?_⟩
      · rw [show natDigitsAux (fuel + 1) n acc =
          natDigitsAux fuel (n / 10) (digitChar (n % 10) :: acc) by
            simp [natDigitsAux, h10]]
        rw [hds]
        simp [List.append_assoc]
      · intro c hc
        rcases List.mem_append.1 hc with hc2 | hc2
        · exact hdig c hc2
        · rw [List.mem_singleton] at hc2
          rw [hc2, digitChar_toNat (n % 10) (Nat.mod_lt n (by omega))]
          have := Nat.mod_lt n (show 0 < 10 by omega)
          omega
      · rw [valOfDigits, List.foldl_append]
        rw [show List.foldl (fun a c => 10 * a + (c.toNat - 48)) 0 ds =
          valOfDigits ds from rfl, hval, List.foldl_cons, List.foldl_nil,
          digitChar_toNat (n % 10) (Nat.mod_lt n (by omega))]
        have := Nat.div_add_mod n 10
        omega

theorem natRepr_inj (m n : Nat) (h : natRepr m = natRepr n) : m = n := by
  obtain ⟨ds1, h1, _, _, hv1⟩ := natDigitsAux_spec (m + 1) m [] (by omega)
  obtain ⟨ds2, h2, _, _, hv2⟩ := natDigitsAux_spec (n + 1) n [] (by omega)
  have hdata : natDigitsAux (m + 1) m [] = natDigitsAux (n + 1) n [] :=
    congrArg String.data h
  rw [h1, h2, List.append_nil, List.append_nil] at hdata
  rw [← hv1, ← hv2, hdata]

theorem natRepr_no_underscore (n : Nat) : ∀ c ∈ (natRepr n).data, c ≠ '_' := by
  obtain ⟨ds, h1, _, hdig, _⟩ := natDigitsAux_spec (n + 1) n [] (by omega)
  intro c hc
  have hds : (natRepr n).data = ds := by
    rw [show (natRepr n).data = natDigitsAux (n + 1) n [] from rfl, h1,
      List.append_nil]
  rw [hds] at hc
  have hb := hdig c hc
  intro hceq
  rw [hceq] at hb
  have h95 : ('_').toNat = 95 := rfl
  omega

theorem takeWhile_until_underscore (d s : List Char) (hd : ∀ c ∈ d, c ≠ '_') :
    (d.reverse ++ '_' :: s.reverse).takeWhile (fun c => c != '_') = d.reverse := by
  rw [List.takeWhile_append_of_pos ?hpos]
  case hpos =>
    intro a ha
    rw [List.mem_reverse] at ha
    simp [hd a ha]
  rw [List.takeWhile_cons_of_neg (by simp)]
  simp

theorem append_underscore_inj (s1 s2 d1 d2 : List Char)
    (h1 : ∀ c ∈ d1, c ≠ '_') (h2 : ∀ c ∈ d2, c ≠ '_')
    (heq : s1 ++ '_' :: d1 = s2 ++ '_' :: d2) :
    d1 = d2 ∧ s1 = s2 := by
  have hrev : d1.reverse ++ '_' :: s1.reverse = d2.reverse ++ '_' :: s2.reverse := by
    have hr := congrArg List.reverse heq
    simpa [List.reverse_append, List.append_assoc] using hr
  have hd12 : d1.reverse = d2.reverse := by
    rw [← takeWhile_until_underscore d1 s1 h1,
      ← takeWhile_until_underscore d2 s2 h2, hrev]
  have hd : d1 = d2 := by
    have hr2 := congrArg List.reverse hd12
    simpa using hr2
  refine ⟨hd, ?_⟩
  rw [hd] at heq
  exact List.append_cancel_right heq

theorem mkId_data (app c : String) (i : Nat) :
    (mkId app c i).data = (app.data ++ '_' :: c.data) ++ '_' :: (natRepr i).data := by
  show (((app.data ++ ['_']) ++ c.data) ++ ['_']) ++ (natRepr i).data = _
  simp [List.append_assoc]

theorem mkId_inj_idx (app c1 c2 : String) (i j : Nat)
    (h : mkId app c1 i = mkId app c2 j) : i = j := by
  have hd := congrArg String.data h
  rw [mkId_data, mkId_data] at hd
  obtain ⟨hdig, _⟩ := append_underscore_inj _ _ _ _
    (natRepr_no_underscore i) (natRepr_no_underscore j) hd
  exact natRepr_inj i j (String.ext hdig)

theorem enumFrom_fst_le {α : Type} :
    ∀ (l : List α) (k : Nat) (p : Nat × α), p ∈ l.enumFrom k → k ≤ p.1 := by
  intro l
  induction l with
  | nil => intro k p hp; exact absurd hp (List.not_mem_nil p)
  | cons x xtl ih =>
    intro k p hp
    rcases List.mem_cons.1 hp with rfl | hp2
    · exact Nat.le_refl k
    · exact Nat.le_of_succ_le (ih (k + 1) p hp2)

theorem batchIds_nodup_from (app : String) :
    ∀ (logs : List LogEntry) (k : Nat),
    ((logs.enumFrom k).map (fun p => mkId app p.2.correlation_id p.1)).Nodup := by
  intro logs
  induction logs with
  | nil => intro k; simp
  | cons e ltl ih =>
    intro k
    show ((((k, e) :: ltl.enumFrom (k + 1)).map
      (fun p => mkId app p.2.correlation_id p.1))).Nodup
    rw [List.map_cons, List.nodup_cons]
    refine ⟨?_, ih (k + 1)⟩
    intro hmem
    obtain ⟨p, hp, hpe⟩ := List.mem_map.1 hmem
    have hk := enumFrom_fst_le ltl (k + 1) p hp
    have hij := mkId_inj_idx app p.2.correlation_id e.correlation_id p.1 k hpe
    omega

/-- The claim of C9 is false as stated: re-loading the same one-record file
a second time appends a duplicate entry carrying the SAME identifier
`AuthService_c1_0`, so identifiers are not unique across all stored
entries after a re-load. -/
theorem spec_C9_counterexample :
    ¬ (((storeLogs (storeLogs [] [⟨"AuthService", "c1", "INFO", "m", "d", "t"⟩]
          "AuthService") [⟨"AuthService", "c1", "INFO", "m", "d", "t"⟩]
          "AuthService").map StoredLog.id).Nodup) := by
  decide

/-- C9 (amended): every stored entry's identifier is derived
deterministically from the application parameter, the record's correlation
id and the record's sequence index within its load batch, and the
identifiers of a single load batch are pairwise distinct; re-loading the
same file reproduces the same identifiers, so the duplicate entries of a
re-load share identifiers rather than receiving fresh ones. -/
theorem spec_C9 (logs : List LogEntry) (app : String) :
    (storeBatch logs app).map StoredLog.id =
      logs.enum.map (fun p => mkId app p.2.correlation_id p.1) ∧
    ((storeBatch logs app).map StoredLog.id).Nodup := by
  have hmap : (storeBatch logs app).map StoredLog.id =
      logs.enum.map (fun p => mkId app p.2.correlation_id p.1) := by
    rw [storeBatch, List.map_map]
    rfl
  refine ⟨hmap, ?_⟩
  rw [hmap]
  exact batchIds_nodup_from app logs 0

theorem generateReport_eq (store : List StoredLog) (llm : String → String)
    (cids : List String) :
    generateReport store llm cids = cids.map (reportRow store llm) := by
  rw [generateReport]
  suffices h : ∀ acc, cids.foldl (fun acc cid => acc ++ [reportRow store llm cid]) acc =
      acc ++ cids.map (reportRow store llm) by
    simpa using h []
  induction cids with
  | nil => intro acc; simp
  | cons c ctl ih =>
    intro acc
    rw [List.foldl_cons, ih, List.map_cons]
    simp

theorem getD_map_lt {α β : Type} (f : α → β) :
    ∀ (l : List α) (i : Nat), i < l.length → ∀ (d : α) (d2 : β),
    (l.map f).getD i d2 = f (l.getD i d) := by
  intro l
  induction l with
  | nil => intro i hi; exact absurd hi (by simp)
  | cons x xtl ih =>
    intro i hi d d2
    cases i with
    | zero => rfl
    | succ j =>
      simp only [List.map_cons, List.getD_cons_succ]
      exact ih j (by simpa using hi) d d2

theorem reportRow_keys (store : List StoredLog) (llm : String → String)
    (cid : String) : (reportRow store llm cid).map Prod.fst = reportHeader := rfl

theorem apps_ne_corrKey : ∀ a ∈ applications, ¬ ("correlation_id" = a) := by decide

/-- C5: the report has exactly one row per requested correlation id, in
input order (an id occurring twice yields two identical rows at those
positions); every row's key sequence is `correlation_id` followed by the
applications in fixed enumeration order; the row's correlation id is the
requested one; and each application column carries the classifier's value
for that application, with `NO_LOGS` as the default were the value
absent. -/
theorem spec_C5 (store : List StoredLog) (llm : String → String)
    (cids : List String) (i : Nat) (h : i < cids.length) :
    (generateReport store llm cids).length = cids.length ∧
    ((generateReport store llm cids).getD i []).map Prod.fst = reportHeader ∧
    lookupStr "correlation_id" ((generateReport store llm cids).getD i []) =
      some (cids.getD i "") ∧
    (∀ a ∈ applications,
      lookupStr a ((generateReport store llm cids).getD i []) =
        some ((lookupStr a (processCorrId store llm (cids.getD i ""))).getD
          "NO_LOGS")) := by
  have hrow : (generateReport store llm cids).getD i [] =
      reportRow store llm (cids.getD i "") := by
    rw [generateReport_eq]
    exact getD_map_lt _ cids i h "" []
  refine ⟨by rw [generateReport_eq]; simp, ?_, ?_, ?_⟩
  · rw [hrow, reportRow_keys]
  · rw [hrow, reportRow]
    simp [lookupStr]
  · intro a ha
    rw [hrow, reportRow, lookupStr, if_neg (apps_ne_corrKey a ha)]
    exact lookupStr_map_pair _ applications a ha

/-- Concrete instance of C5: a duplicated correlation id produces its row
again at the second position. -/
theorem spec_C5_witness :
    (generateReport [] (fun _ => "STATUS: SUCCESS") ["c1", "c1"]).length =
      (["c1", "c1"] : List String).length ∧
    ((generateReport [] (fun _ => "STATUS: SUCCESS") ["c1", "c1"]).getD 1
        []).map Prod.fst = reportHeader ∧
    lookupStr "correlation_id"
        ((generateReport [] (fun _ => "STATUS: SUCCESS") ["c1", "c1"]).getD 1 []) =
      some ((["c1", "c1"] : List String).getD 1 "") ∧
    (∀ a ∈ applications,
      lookupStr a
          ((generateReport [] (fun _ => "STATUS: SUCCESS") ["c1", "c1"]).getD 1 []) =
        some ((lookupStr a (processCorrId [] (fun _ => "STATUS: SUCCESS")
          ((["c1", "c1"] : List String).getD 1 ""))).getD "NO_LOGS")) :=
  spec_C5 [] (fun _ => "STATUS: SUCCESS") ["c1", "c1"] 1 (by decide)

/-- Concrete instance of C10: with an empty bundle and a mocked model, the
first application has a present, legal verdict. -/
theorem spec_C10_witness :
    ∃ v,
      lookupStr "AuthService"
          (analyzeLogs (fun _ => "garbled") "c2"
            [("AuthService", [⟨"doc", ⟨"AuthService", "c2", "ERROR", "t", "m", "d"⟩⟩])]).1 =
        some v ∧
      (v = "SUCCESS" ∨ v = "FAILURE" ∨ v = "UNKNOWN" ∨ v = "NO_LOGS") :=
  (spec_C10 (fun _ => "garbled") "c2"
      [("AuthService", [⟨"doc", ⟨"AuthService", "c2", "ERROR", "t", "m", "d"⟩⟩])]).2
    "AuthService" (by decide)

end LogRAG
